import Mathlib

/-!
Verification of `maksttc_cutts.c` (MAK repository): a MEX routine computing the
Spike Time Tiling Coefficient (STTC) between two spike trains over a sweep of
delta-t values.

Shallow embedding conventions:
* C `double` values are modelled exactly by `ℚ` (all inputs exercised here are
  exactly representable; IEEE rounding is out of scope).
* `NaN` results (from `mxGetNaN` in `run_sttc`) are modelled by `none` in
  `Option ℚ`.
* Division in `ℚ` is total (`x / 0 = 0`), mirroring that the C code applies no
  special-casing to its divisions; both the embedding and every specification
  formula below use the same total division.
* Spike trains are `List ℚ`, a pointer+count pair `(p, N)` in C becomes the
  list of the `N` values starting at `p`.
* `mexErrMsgIdAndTxt` aborts the call, modelled by `Except MexErr`.
-/

namespace Maksttc

/-- The C library `fabs`, as used in `run_P` (`maksttc_cutts.c` line 75). -/
def fabs (x : ℚ) : ℚ := if x < 0 then -x else x

/-- The inner `while ( j < N2 )` loop of `run_P` (`maksttc_cutts.c` lines
72-88) for one spike `x` of train 1.  The cursor `j` into train 2 is
represented by the suffix of train 2 starting at `j`.  Returns whether a hit
was counted (`Nab = Nab + 1 ; break`), together with the cursor position at
exit: a hit or an overshoot (`spike_times_2[j] > spike_times_1[i]`) leaves the
cursor in place; otherwise the cursor advances (`j = j + 1`). -/
def run_P_while (dt x : ℚ) : List ℚ → Bool × List ℚ
  | [] => (false, [])
  | y :: rest =>
    if fabs (x - y) ≤ dt then (true, y :: rest)
    else if y > x then (false, y :: rest)
    else run_P_while dt x rest

/-- The outer `for` loop of `run_P` (`maksttc_cutts.c` lines 70-88): scan the
spikes of train 1 in order, sharing one forward-only cursor into train 2. -/
def run_P_go (dt : ℚ) : List ℚ → List ℚ → ℕ
  | [], _ => 0
  | x :: rest, cur =>
    (if (run_P_while dt x cur).1 then 1 else 0) + run_P_go dt rest (run_P_while dt x cur).2

/-- Embeds `run_P` (`maksttc_cutts.c` lines 54-93): count of spikes in `t1` matched
within `dt` by some spike of `t2`.  The C function returns the count as a
`double`; division by `N1` happens in `run_sttc`. -/
def run_P (dt : ℚ) (t1 t2 : List ℚ) : ℕ := run_P_go dt t1 t2

/-- The `while ( i < ( N1 - 1 ) )` loop of `run_T` (`maksttc_cutts.c` lines
131-141): total amount subtracted for overlapping coverage intervals of
adjacent spike pairs (`if ( diff < 2 * dt ) time_A = time_A - 2 * dt + diff`). -/
def pairSub (dt : ℚ) : List ℚ → ℚ
  | x :: y :: rest => (if y - x < 2 * dt then 2 * dt - (y - x) else 0) + pairSub dt (y :: rest)
  | _ => 0

/-- The first boundary clip of the `N1 > 1` branch of `run_T`
(`maksttc_cutts.c` lines 146-147): `if ((spike_times_1[0] - start) < dt)
time_A = time_A - start + spike_times_1[0] - dt`. -/
def clipStart (dt s t0 timeA : ℚ) : ℚ :=
  if t0 - s < dt then timeA - s + t0 - dt else timeA

/-- The second boundary clip of the `N1 > 1` branch of `run_T`
(`maksttc_cutts.c` lines 149-150): `if ((end - spike_times_1[N1-1]) < dt)
time_A = time_A - spike_times_1[N1-1] - dt + end`. -/
def clipEnd (dt e tlast timeA : ℚ) : ℚ :=
  if e - tlast < dt then timeA - tlast - dt + e else timeA

/-- Embeds `run_T` (`maksttc_cutts.c` lines 97-157).  Initial value
`time_A = 2 * N1 * dt`.  For `N1 == 1` the code uses an `if / else if`
(lines 117-123), so the two boundary clips are mutually exclusive; for
`N1 > 1` the pairwise overlap subtraction is followed by two independent
`if`s.  `run_T` is never called with an empty train (`run_sttc` returns
early when `N1 == 0 || N2 == 0`), so the `[]` case here is arbitrary. -/
def run_T (dt s e : ℚ) : List ℚ → ℚ
  | [] => 0
  | [t0] =>
    if t0 - s < dt then 2 * dt - s + t0 - dt
    else if t0 + dt > e then 2 * dt - t0 - dt + e
    else 2 * dt
  | t0 :: t1 :: rest =>
    clipEnd dt e ((t0 :: t1 :: rest).getLastD 0)
      (clipStart dt s t0
        (2 * (((t0 :: t1 :: rest).length : ℚ)) * dt - pairSub dt (t0 :: t1 :: rest)))

/-- Embeds `run_sttc` (`maksttc_cutts.c` lines 161-205).  `none` models the
`*index = mxGetNaN()` early return for an empty train; otherwise, with
`T = Time[1] - Time[0]`, `TA = run_T(t1)/T`, `TB = run_T(t2)/T`,
`PA = run_P(t1,t2)/N1`, `PB = run_P(t2,t1)/N2`, the coefficient is
`0.5*(PA-TB)/(1-TB*PA) + 0.5*(PB-TA)/(1-TA*PB)` (locals inlined). -/
def run_sttc (t1 t2 : List ℚ) (dt s e : ℚ) : Option ℚ :=
  if t1.length = 0 ∨ t2.length = 0 then none
  else some (
    0.5 * ((run_P dt t1 t2 : ℚ) / (t1.length : ℚ) - run_T dt s e t2 / (e - s)) /
      (1 - run_T dt s e t2 / (e - s) * ((run_P dt t1 t2 : ℚ) / (t1.length : ℚ))) +
    0.5 * ((run_P dt t2 t1 : ℚ) / (t2.length : ℚ) - run_T dt s e t1 / (e - s)) /
      (1 - run_T dt s e t1 / (e - s) * ((run_P dt t2 t1 : ℚ) / (t2.length : ℚ))))

/-- The lower clipping loop of `mexFunction` (`maksttc_cutts.c` lines
305-308): `while ( *A < win[0] && Na ) { A++ ; Na-- ; }`, value-level
semantics (drop leading spikes `< win[0]`). -/
def clipLower (s : ℚ) : List ℚ → List ℚ
  | [] => []
  | a :: rest => if a < s then clipLower s rest else a :: rest

/-- Total embedding of the same lower clipping loop with an explicit
out-of-bounds signal.  The C guard `*A < win[0] && Na` reads `*A` first and
only then tests `Na`; when the remaining count is zero that read is one past
the end of the array, modelled here by the `none` branch. -/
def clipLowerTotal (s : ℚ) : List ℚ → Option (List ℚ)
  | [] => none
  | a :: rest => if a < s then clipLowerTotal s rest else some (a :: rest)

/-- The upper clipping loop of `mexFunction` (`maksttc_cutts.c` lines
317-324): `for ( i = 0 ; i < Na && A[i] <= win[1] ; i++ ) ; Na -= (Na - i)`,
i.e. keep the longest prefix of spikes `≤ win[1]`. -/
def clipUpper (e : ℚ) : List ℚ → List ℚ
  | [] => []
  | a :: rest => if a ≤ e then a :: clipUpper e rest else []

/-- Window clipping as performed once by `mexFunction` before the sweep:
lower clip then upper clip. -/
def clip (s e : ℚ) (t : List ℚ) : List ℚ := clipUpper e (clipLower s t)

/-- Embeds `dtn` (`maksttc_cutts.c` line 281): `dtn = ceil ( dtv / 0.001 ) + 1`,
the number of millisecond steps from 0 to `dtv`, rounded up. -/
def dtn (dtv : ℚ) : ℕ := (⌈dtv / 0.001⌉).toNat + 1

/-- The optional `DT` output (`maksttc_cutts.c` lines 334-338):
`DT[i] = (double) i / 1000.0` for `i = 0 .. dtn - 1`. -/
def dt_values (dtv : ℚ) : List ℚ := (List.range (dtn dtv)).map (fun k : ℕ => (k : ℚ) / 1000)

/-- The `/*-- Compute STTC --*/` loop of `mexFunction` (`maksttc_cutts.c`
lines 330-343): one `run_sttc` call per delta-t value, on the trains clipped
once to the window. -/
def sttc_sweep (s e dtv : ℚ) (A B : List ℚ) : List (Option ℚ) :=
  (List.range (dtn dtv)).map
    (fun k : ℕ => run_sttc (clip s e A) (clip s e B) ((k : ℚ) / 1000) s e)

/-- The identifiers passed to `mexErrMsgIdAndTxt` in `mexFunction`. -/
inductive MexErr
  | nargsin
  | nargsout
  | win
  | dt
  | AB
  | neg_dt
  | winlim
  deriving DecidableEq

/-- The slice of an `mxArray` observed by `mexFunction`: `mxIsDouble`, the
dimensions (`mxGetNumberOfElements`, `mxIsScalar`) and the real data
(`mxGetPr`, `mxGetScalar`) in column-major linear order. -/
structure MxArray where
  isDouble : Bool
  m : ℕ
  n : ℕ
  re : List ℚ
  deriving DecidableEq

/-- Embeds `mxGetNumberOfElements`. -/
def MxArray.numel (a : MxArray) : ℕ := a.m * a.n

/-- Embeds `mxGetScalar`: first element of the real data. -/
def MxArray.scalar (a : MxArray) : ℚ := a.re.headD 0

/-- A MATLAB vector: a single row or a single column. -/
def MxArray.isVector (a : MxArray) : Prop := a.m = 1 ∨ a.n = 1

/-- Embeds `mexFunction` (`maksttc_cutts.c` lines 210-365): the validation chain in
source order (argument counts, `win` a two-element double, `dt` a scalar
double, `A` and `B` doubles, `dt >= 0`, then `win[1] > win[0]`), followed by
the clipped sweep.  The second component is the optional `DT` output,
produced when `1 < nlhs`. -/
def mexFunction (nlhs nrhs : ℕ) (win dtArg A B : MxArray) :
    Except MexErr (List (Option ℚ) × Option (List ℚ)) :=
  if nrhs ≠ 4 then .error .nargsin
  else if 2 < nlhs then .error .nargsout
  else if ¬ (win.isDouble = true ∧ win.numel = 2) then .error .win
  else if ¬ (dtArg.isDouble = true ∧ dtArg.numel = 1) then .error .dt
  else if ¬ (A.isDouble = true ∧ B.isDouble = true) then .error .AB
  else if dtArg.scalar < 0 then .error .neg_dt
  else if win.re.getD 1 0 ≤ win.re.getD 0 0 then .error .winlim
  else .ok (sttc_sweep (win.re.getD 0 0) (win.re.getD 1 0) dtArg.scalar A.re B.re,
            if 1 < nlhs then some (dt_values dtArg.scalar) else none)

/-- Whether a call completed, i.e. did not abort through `mexErrMsgIdAndTxt`. -/
def accepted {α : Type} (r : Except MexErr α) : Bool :=
  match r with
  | .ok _ => true
  | .error _ => false

/-! ### Helper lemmas -/

lemma fabs_eq_abs (x : ℚ) : fabs x = |x| := by
  unfold fabs
  split_ifs with h
  · exact (abs_of_neg h).symm
  · exact (abs_of_nonneg (not_lt.mp h)).symm

lemma run_P_while_true_iff (dt x : ℚ) :
    ∀ l : List ℚ, l.Pairwise (· ≤ ·) →
      ((run_P_while dt x l).1 = true ↔ ∃ y ∈ l, |x - y| ≤ dt) := by
  intro l
  induction l with
  | nil => intro _; simp [run_P_while]
  | cons y rest ih =>
    intro hp
    have hhead := (List.pairwise_cons.mp hp).1
    have hrest := (List.pairwise_cons.mp hp).2
    simp only [run_P_while, fabs_eq_abs]
    split_ifs with h1 h2
    · exact iff_of_true rfl ⟨y, List.mem_cons_self y rest, h1⟩
    · refine iff_of_false (by simp) ?_
      rintro ⟨z, hz, hzd⟩
      rcases List.mem_cons.mp hz with rfl | hz'
      · exact h1 hzd
      · have hyz : y ≤ z := hhead z hz'
        have e1 : |x - y| = y - x := by
          rw [abs_sub_comm]; exact abs_of_pos (by linarith)
        have e2 : z - x ≤ |x - z| := by
          rw [abs_sub_comm]; exact le_abs_self _
        have := not_le.mp h1
        linarith
    · rw [ih hrest]
      constructor
      · rintro ⟨z, hz, hc⟩
        exact ⟨z, List.mem_cons_of_mem y hz, hc⟩
      · rintro ⟨z, hz, hc⟩
        rcases List.mem_cons.mp hz with rfl | hz'
        · exact absurd hc h1
        · exact ⟨z, hz', hc⟩

lemma run_P_while_snd_sublist (dt x : ℚ) :
    ∀ l : List ℚ, List.Sublist (run_P_while dt x l).2 l := by
  intro l
  induction l with
  | nil => simp [run_P_while]
  | cons y rest ih =>
    simp only [run_P_while]
    split_ifs with h1 h2
    · exact List.Sublist.refl _
    · exact List.Sublist.refl _
    · exact ih.trans (List.sublist_cons_self y rest)

lemma run_P_while_preserve (dt x x' : ℚ) (hx : x ≤ x') :
    ∀ l : List ℚ, (∃ y ∈ l, |x' - y| ≤ dt) →
      ∃ y ∈ (run_P_while dt x l).2, |x' - y| ≤ dt := by
  intro l
  induction l with
  | nil => simp [run_P_while]
  | cons y rest ih =>
    intro hex
    simp only [run_P_while, fabs_eq_abs]
    split_ifs with h1 h2
    · exact hex
    · exact hex
    · obtain ⟨z, hz, hzd⟩ := hex
      rcases List.mem_cons.mp hz with rfl | hz'
      · exfalso
        have hzx : z ≤ x := not_lt.mp h2
        have e1 : |x - z| = x - z := abs_of_nonneg (by linarith)
        have e2 : x' - z ≤ |x' - z| := le_abs_self _
        have := not_le.mp h1
        linarith
      · exact ih ⟨z, hz', hzd⟩

lemma run_P_go_count (dt : ℚ) :
    ∀ t1 cur : List ℚ, t1.Pairwise (· ≤ ·) → cur.Pairwise (· ≤ ·) →
      run_P_go dt t1 cur = t1.countP (fun z => decide (∃ y ∈ cur, |z - y| ≤ dt)) := by
  intro t1
  induction t1 with
  | nil => intro cur _ _; simp [run_P_go]
  | cons x rest ih =>
    intro cur h1 hcur
    have hx : ∀ z ∈ rest, x ≤ z := (List.pairwise_cons.mp h1).1
    have hrest : rest.Pairwise (· ≤ ·) := (List.pairwise_cons.mp h1).2
    have hcur' : ((run_P_while dt x cur).2).Pairwise (· ≤ ·) :=
      hcur.sublist (run_P_while_snd_sublist dt x cur)
    have hcount :
        rest.countP (fun z => decide (∃ y ∈ (run_P_while dt x cur).2, |z - y| ≤ dt)) =
        rest.countP (fun z => decide (∃ y ∈ cur, |z - y| ≤ dt)) := by
      apply List.countP_congr
      intro z hz
      simp only [decide_eq_true_eq]
      constructor
      · rintro ⟨y, hy, hyd⟩
        exact ⟨y, (run_P_while_snd_sublist dt x cur).subset hy, hyd⟩
      · exact run_P_while_preserve dt x z (hx z hz) cur
    have hhit : (run_P_while dt x cur).1 = decide (∃ y ∈ cur, |x - y| ≤ dt) := by
      by_cases hc : ∃ y ∈ cur, |x - y| ≤ dt
      · rw [(run_P_while_true_iff dt x cur hcur).mpr hc, decide_eq_true hc]
      · cases hbv : (run_P_while dt x cur).1 with
        | true => exact absurd ((run_P_while_true_iff dt x cur hcur).mp hbv) hc
        | false => rw [decide_eq_false hc]
    simp only [run_P_go, List.countP_cons]
    rw [ih (run_P_while dt x cur).2 hrest hcur', hcount, hhit]
    omega

/-! ### C2 -/

/-- C2: for sorted (non-decreasing) trains, `run_P` returns exactly the number
of spikes of train 1 that have at least one spike of train 2 at absolute
distance at most `dt` (each train-1 spike counted at most once); despite the
shared forward-only cursor into train 2, no qualifying match is missed.
`run_sttc` then divides this count by the length of train 1. -/
theorem C2_run_P_exact_count (dt : ℚ) (t1 t2 : List ℚ)
    (h1 : t1.Sorted (· ≤ ·)) (h2 : t2.Sorted (· ≤ ·)) (hdt : 0 ≤ dt) :
    run_P dt t1 t2 = t1.countP (fun z => decide (∃ y ∈ t2, |z - y| ≤ dt)) :=
  run_P_go_count dt t1 t2 h1 h2

/-- Concrete instance of `C2_run_P_exact_count`: trains `[1, 5]` and
`[1, 1, 6]` with `dt = 1`; both spikes of train 1 are matched. -/
theorem C2_run_P_exact_count_witness :
    List.Sorted (· ≤ ·) [(1 : ℚ), 5] ∧ List.Sorted (· ≤ ·) [(1 : ℚ), 1, 6] ∧
      (0 : ℚ) ≤ 1 ∧
      run_P 1 [(1 : ℚ), 5] [1, 1, 6] =
        List.countP (fun z => decide (∃ y ∈ [(1 : ℚ), 1, 6], |z - y| ≤ 1)) [(1 : ℚ), 5] :=
  ⟨by decide, by decide, by decide,
    C2_run_P_exact_count 1 [1, 5] [1, 1, 6] (by decide) (by decide) (by decide)⟩

/-! ### C1 -/

/-- C1: for trains that are non-empty (after window clipping), a window with
`s < e` and `dt ≥ 0`, the coefficient computed by `run_sttc` is exactly
`0.5*(PA - TB)/(1 - TB*PA) + 0.5*(PB - TA)/(1 - TA*PB)` with
`TA = run_T(t1)/(e-s)`, `TB = run_T(t2)/(e-s)`, `PA = run_P(t1,t2)/len t1`,
`PB = run_P(t2,t1)/len t2`.  No denominator is special-cased: both the code
and this formula use the same (total) division operator throughout. -/
theorem C1_coefficient_formula (t1 t2 : List ℚ) (dt s e : ℚ)
    (h1 : t1 ≠ []) (h2 : t2 ≠ []) (hw : s < e) (hdt : 0 ≤ dt) :
    run_sttc t1 t2 dt s e = some (
      0.5 * ((run_P dt t1 t2 : ℚ) / (t1.length : ℚ) - run_T dt s e t2 / (e - s)) /
        (1 - run_T dt s e t2 / (e - s) * ((run_P dt t1 t2 : ℚ) / (t1.length : ℚ))) +
      0.5 * ((run_P dt t2 t1 : ℚ) / (t2.length : ℚ) - run_T dt s e t1 / (e - s)) /
        (1 - run_T dt s e t1 / (e - s) * ((run_P dt t2 t1 : ℚ) / (t2.length : ℚ)))) := by
  unfold run_sttc
  rw [if_neg]
  rintro (h | h)
  · exact h1 (List.length_eq_zero.mp h)
  · exact h2 (List.length_eq_zero.mp h)

/-- Concrete instance of `C1_coefficient_formula` at `t1 = [1]`, `t2 = [2]`,
`dt = 0`, window `(0, 10)`. -/
theorem C1_coefficient_formula_witness :
    ([(1 : ℚ)] ≠ ([] : List ℚ)) ∧ ([(2 : ℚ)] ≠ ([] : List ℚ)) ∧ (0 : ℚ) < 10 ∧ (0 : ℚ) ≤ 0 ∧
      run_sttc [(1 : ℚ)] [(2 : ℚ)] 0 0 10 = some (
        0.5 * ((run_P 0 [(1 : ℚ)] [(2 : ℚ)] : ℚ) / (([(1 : ℚ)].length : ℚ)) -
            run_T 0 0 10 [(2 : ℚ)] / (10 - 0)) /
          (1 - run_T 0 0 10 [(2 : ℚ)] / (10 - 0) *
            ((run_P 0 [(1 : ℚ)] [(2 : ℚ)] : ℚ) / (([(1 : ℚ)].length : ℚ)))) +
        0.5 * ((run_P 0 [(2 : ℚ)] [(1 : ℚ)] : ℚ) / (([(2 : ℚ)].length : ℚ)) -
            run_T 0 0 10 [(1 : ℚ)] / (10 - 0)) /
          (1 - run_T 0 0 10 [(1 : ℚ)] / (10 - 0) *
            ((run_P 0 [(2 : ℚ)] [(1 : ℚ)] : ℚ) / (([(2 : ℚ)].length : ℚ))))) :=
  ⟨by decide, by decide, by decide, by decide,
    C1_coefficient_formula [1] [2] 0 0 10 (by decide) (by decide) (by decide) (by decide)⟩

/-! ### C3 -/

/-- C3 counterexample: single spike `t0 = 1`, window `(0, 2)`, `dt = 2`.  The
spike's interval `[-1, 3]` extends past both boundaries (`t0 - s < dt` and
`t0 + dt > e`), yet `run_T` returns `3`: only the start clip was applied.
Applying both clips, as the claim states, would give
`2*dt - (dt - (t0 - s)) - (t0 + dt - e) = 2`. -/
theorem C3_single_spike_counterexample :
    (1 : ℚ) - 0 < 2 ∧ (1 : ℚ) + 2 > 2 ∧
      run_T 2 0 2 [(1 : ℚ)] = 3 ∧
      run_T 2 0 2 [(1 : ℚ)] ≠ 2 * 2 - (2 - ((1 : ℚ) - 0)) - ((1 : ℚ) + 2 - 2) := by
  refine ⟨by norm_num, by norm_num, ?_, ?_⟩ <;> norm_num [run_T]

/-- C3 amended: for a train with exactly one spike, `run_T` applies at most
one boundary clip, chosen exclusively (`if / else if`): the start clip when
`t0 - s < dt`, otherwise the end clip when `t0 + dt > e`.  The end clip is
skipped whenever the start clip fires, even if the interval also extends past
`e` — unlike the multi-spike case, where both clips are applied
independently. -/
theorem C3_single_spike_exclusive_clip (dt s e t0 : ℚ) :
    run_T dt s e [t0] =
      2 * dt - (if t0 - s < dt then dt - (t0 - s)
                else if t0 + dt > e then t0 + dt - e else 0) := by
  simp only [run_T]
  split_ifs <;> ring

/-! ### C7 -/

/-- C7: the STTC coefficient is symmetric in the two trains for every window
and every `dt` (the empty-train NaN guard is symmetric, and PA/PB, TA/TB swap
roles in the formula). -/
theorem C7_sttc_symmetric (t1 t2 : List ℚ) (dt s e : ℚ) :
    run_sttc t1 t2 dt s e = run_sttc t2 t1 dt s e := by
  unfold run_sttc
  by_cases hA : t1.length = 0
  · rw [if_pos (Or.inl hA), if_pos (Or.inr hA)]
  · by_cases hB : t2.length = 0
    · rw [if_pos (Or.inr hB), if_pos (Or.inl hB)]
    · rw [if_neg (by tauto), if_neg (by tauto)]
      congr 1
      ring

/-! ### Clipping lemmas -/

lemma clipLower_sorted (s : ℚ) :
    ∀ l : List ℚ, l.Pairwise (· ≤ ·) → clipLower s l = l.filter (fun x => decide (s ≤ x)) := by
  intro l
  induction l with
  | nil => intro _; rfl
  | cons a rest ih =>
    intro hp
    have hhead := (List.pairwise_cons.mp hp).1
    have hrest := (List.pairwise_cons.mp hp).2
    simp only [clipLower]
    split_ifs with h
    · rw [ih hrest, List.filter_cons_of_neg]
      simp [not_le.mpr h]
    · rw [List.filter_cons_of_pos (by simp [not_lt.mp h])]
      congr 1
      exact (List.filter_eq_self.mpr fun b hb =>
        decide_eq_true (le_trans (not_lt.mp h) (hhead b hb))).symm

lemma clipUpper_sorted (e : ℚ) :
    ∀ l : List ℚ, l.Pairwise (· ≤ ·) → clipUpper e l = l.filter (fun x => decide (x ≤ e)) := by
  intro l
  induction l with
  | nil => intro _; rfl
  | cons a rest ih =>
    intro hp
    have hhead := (List.pairwise_cons.mp hp).1
    have hrest := (List.pairwise_cons.mp hp).2
    simp only [clipUpper]
    split_ifs with h
    · rw [List.filter_cons_of_pos (by simp [h]), ih hrest]
    · rw [List.filter_cons_of_neg (by simp [h])]
      exact (List.filter_eq_nil_iff.mpr fun b hb => by
        simp only [decide_eq_true_eq]
        exact fun hbe => h (le_trans (hhead b hb) hbe)).symm

lemma clipUpper_idem (e : ℚ) : ∀ l : List ℚ, clipUpper e (clipUpper e l) = clipUpper e l := by
  intro l
  induction l with
  | nil => rfl
  | cons a rest ih =>
    simp only [clipUpper]
    split_ifs with h
    · simp only [clipUpper, if_pos h, ih]
    · rfl

lemma clipLower_head (s : ℚ) :
    ∀ l a rest, clipLower s l = a :: rest → ¬ a < s := by
  intro l
  induction l with
  | nil => intro a rest h; simp [clipLower] at h
  | cons b tl ih =>
    intro a rest h
    simp only [clipLower] at h
    split_ifs at h with hb
    · exact ih a rest h
    · injection h with h1 _
      subst h1
      exact hb

lemma clipLower_of_head (s : ℚ) (l : List ℚ)
    (h : ∀ a rest, l = a :: rest → ¬ a < s) : clipLower s l = l := by
  cases l with
  | nil => rfl
  | cons a rest => simp only [clipLower]; rw [if_neg (h a rest rfl)]

lemma clipLower_clipUpper_clipLower (s e : ℚ) (t : List ℚ) :
    clipLower s (clipUpper e (clipLower s t)) = clipUpper e (clipLower s t) := by
  apply clipLower_of_head
  intro a rest h
  cases hL : clipLower s t with
  | nil => rw [hL] at h; simp [clipUpper] at h
  | cons b tl =>
    rw [hL] at h
    simp only [clipUpper] at h
    split_ifs at h with hb
    · injection h with h1 _
      subst h1
      exact clipLower_head s t b tl hL

lemma clipLowerTotal_eq (s : ℚ) :
    ∀ l : List ℚ,
      clipLowerTotal s l = if clipLower s l = [] then none else some (clipLower s l) := by
  intro l
  induction l with
  | nil => rfl
  | cons a rest ih =>
    by_cases h : a < s
    · rw [show clipLowerTotal s (a :: rest) = clipLowerTotal s rest by
            simp only [clipLowerTotal, if_pos h],
          show clipLower s (a :: rest) = clipLower s rest by
            simp only [clipLower, if_pos h]]
      exact ih
    · simp only [clipLowerTotal, clipLower, if_neg h]
      rw [if_neg (List.cons_ne_nil a rest)]

/-! ### C6 -/

/-- C6: for a sorted train and a window with `s < e`, clipping returns exactly
the (order-preserving, contiguous) sub-sequence of spikes `t` with
`s ≤ t ≤ e`; in particular spikes exactly at `s` or at `e` are kept, and the
result is empty when no spike is in range. -/
theorem C6_clip_eq_filter (s e : ℚ) (t : List ℚ)
    (hs : t.Sorted (· ≤ ·)) (hw : s < e) :
    clip s e t = t.filter (fun x => decide (s ≤ x ∧ x ≤ e)) := by
  unfold clip
  rw [clipLower_sorted s t hs,
      clipUpper_sorted e _ (hs.sublist (List.filter_sublist t)),
      List.filter_filter]
  apply List.filter_congr
  intro a _
  by_cases h1 : s ≤ a <;> by_cases h2 : a ≤ e <;> simp [h1, h2]

/-- Concrete instance of `C6_clip_eq_filter`: window `(0, 2)` on
`[-1, 0, 1, 2, 3]`; the spikes at the boundaries `0` and `2` are kept and the
out-of-window spikes `-1` and `3` are dropped. -/
theorem C6_clip_eq_filter_witness :
    List.Sorted (· ≤ ·) [(-1 : ℚ), 0, 1, 2, 3] ∧ (0 : ℚ) < 2 ∧
      clip 0 2 [(-1 : ℚ), 0, 1, 2, 3] =
        List.filter (fun x => decide ((0 : ℚ) ≤ x ∧ x ≤ 2)) [(-1 : ℚ), 0, 1, 2, 3] :=
  ⟨by decide, by decide, C6_clip_eq_filter 0 2 [(-1 : ℚ), 0, 1, 2, 3] (by decide) (by decide)⟩

/-! ### C9 -/

/-- C9: window clipping is idempotent — clipping an already-clipped train to
the same window returns it unchanged (proved for every train, so in
particular for sorted ones). -/
theorem C9_clip_idempotent (s e : ℚ) (t : List ℚ) :
    clip s e (clip s e t) = clip s e t := by
  unfold clip
  rw [clipLower_clipUpper_clipLower, clipUpper_idem]

/-! ### C10 -/

/-- C10: the claim is false — the C loop guard `*A < win[0] && Na` reads the
spike value before testing the remaining count, so in the total embedding the
out-of-bounds branch (`none`) of the clipping loop IS reachable: for the
empty train the very first guard evaluation reads past the array, and for
`[-5]` with window start `0` the guard re-evaluation after consuming the only
element does. -/
theorem C10_guard_out_of_bounds_read :
    clipLowerTotal 0 ([] : List ℚ) = none ∧ clipLowerTotal 0 [(-5 : ℚ)] = none :=
  ⟨rfl, rfl⟩

/-! ### C4 -/

/-- C4: if either train is empty after clipping to the window, every entry of
the coefficient vector is NaN (`none`), for every `max_dt`; the sweep still
returns a full, defined vector of `dtn` entries rather than raising an
error. -/
theorem C4_empty_train_all_nan (s e max_dt : ℚ) (A B : List ℚ)
    (h : clip s e A = [] ∨ clip s e B = []) :
    sttc_sweep s e max_dt A B = List.replicate (dtn max_dt) none := by
  refine List.eq_replicate_iff.mpr ⟨by simp only [sttc_sweep, List.length_map, List.length_range], ?_⟩
  intro b hb
  simp only [sttc_sweep, List.mem_map] at hb
  obtain ⟨k, _, hb⟩ := hb
  rw [← hb]
  unfold run_sttc
  rcases h with h | h <;> rw [if_pos (by simp [h])]

/-- Concrete instance of `C4_empty_train_all_nan`: `A = []`, `B = [3]`,
window `(0, 10)`, `max_dt = 0`. -/
theorem C4_empty_train_all_nan_witness :
    (clip 0 10 ([] : List ℚ) = [] ∨ clip 0 10 [(3 : ℚ)] = []) ∧
      sttc_sweep 0 10 0 [] [(3 : ℚ)] = List.replicate (dtn 0) none :=
  ⟨Or.inl rfl, C4_empty_train_all_nan 0 10 0 [] [(3 : ℚ)] (Or.inl rfl)⟩

/-! ### C5 -/

/-- C5: for `max_dt ≥ 0` the coefficient vector and the dt vector both have
length `⌈max_dt / 0.001⌉ + 1`, the `k`-th dt value is exactly `k / 1000`, and
the dt sweep is strictly increasing (hence starts at `0/1000 = 0`), in 1:1
positional correspondence with the coefficients. -/
theorem C5_sweep_lengths_and_values (max_dt : ℚ) (hdt : 0 ≤ max_dt)
    (s e : ℚ) (A B : List ℚ) :
    (sttc_sweep s e max_dt A B).length = (⌈max_dt / 0.001⌉).toNat + 1 ∧
    (dt_values max_dt).length = (⌈max_dt / 0.001⌉).toNat + 1 ∧
    (∀ k (hk : k < (dt_values max_dt).length),
        (dt_values max_dt).get ⟨k, hk⟩ = (k : ℚ) / 1000) ∧
    (dt_values max_dt).Pairwise (· < ·) := by
  refine ⟨by simp only [sttc_sweep, List.length_map, List.length_range, dtn],
          by simp only [dt_values, List.length_map, List.length_range, dtn], ?_, ?_⟩
  · intro k hk
    simp only [dt_values, List.get_eq_getElem, List.getElem_map, List.getElem_range]
  · simp only [dt_values]
    exact (List.pairwise_lt_range (dtn max_dt)).map _
      (fun a b hab => div_lt_div_of_pos_right (by exact_mod_cast hab) (by norm_num))

/-- Concrete instance of `C5_sweep_lengths_and_values` at `max_dt = 2`,
window `(0, 1)`, trains `[1]` and `[2]`. -/
theorem C5_sweep_lengths_and_values_witness :
    (0 : ℚ) ≤ 2 ∧
      ((sttc_sweep 0 1 2 [(1 : ℚ)] [(2 : ℚ)]).length = (⌈(2 : ℚ) / 0.001⌉).toNat + 1 ∧
       (dt_values 2).length = (⌈(2 : ℚ) / 0.001⌉).toNat + 1 ∧
       (∀ k (hk : k < (dt_values 2).length),
           (dt_values 2).get ⟨k, hk⟩ = (k : ℚ) / 1000) ∧
       (dt_values 2).Pairwise (· < ·)) :=
  ⟨by decide, C5_sweep_lengths_and_values 2 (by decide) 0 1 [(1 : ℚ)] [(2 : ℚ)]⟩

/-! ### C8 -/

/-- C8 counterexample: the claim states the call is rejected exactly when the
input is invalid, with "A or B not double vectors" among the invalid cases.
Here `A` is a 2-by-3 double matrix — not a vector — while all other
arguments are valid, and the call is accepted (its six elements are silently
treated as a linearised train), refuting the claim as stated. -/
theorem C8_matrix_accepted_counterexample :
    ¬ (MxArray.mk true 2 3 [1, 2, 3, 4, 5, 6]).isVector ∧
      accepted (mexFunction 1 4 (MxArray.mk true 1 2 [0, 10]) (MxArray.mk true 1 1 [0])
        (MxArray.mk true 2 3 [1, 2, 3, 4, 5, 6]) (MxArray.mk true 1 1 [3])) = true :=
  ⟨by norm_num [MxArray.isVector], rfl⟩

/-- C8 amended: the call is rejected, with no output produced (the error and
ok outcomes are mutually exclusive by construction of `Except`), exactly when
`nrhs ≠ 4`, more than two outputs are requested, `win` is not a two-element
double, `dt` is not a scalar double, `A` or `B` is not of double type,
`max_dt < 0`, or `win[1] ≤ win[0]`.  Vector shape of `A` and `B` is NOT
enforced: any double array is accepted, its elements read in column-major
order. -/
theorem C8_rejected_iff_invalid (nlhs nrhs : ℕ) (win dtArg A B : MxArray) :
    accepted (mexFunction nlhs nrhs win dtArg A B) = false ↔
      (nrhs ≠ 4 ∨ 2 < nlhs ∨
       ¬ (win.isDouble = true ∧ win.numel = 2) ∨
       ¬ (dtArg.isDouble = true ∧ dtArg.numel = 1) ∨
       ¬ (A.isDouble = true ∧ B.isDouble = true) ∨
       dtArg.scalar < 0 ∨ win.re.getD 1 0 ≤ win.re.getD 0 0) := by
  unfold mexFunction
  split_ifs with h1 h2 h3 h4 h5 h6 h7 <;>
    simp only [accepted, eq_self_iff_true, true_iff, Bool.true_eq_false, false_iff] <;>
    tauto

end Maksttc
